import Mathlib

/-!
# Formal model of the f1-market trading core

A shallow embedding of the repository's pricing curve
(`src/pricing/bonding_curve.py`), wallet/ledger engine
(`src/services/wallet_service.py`), market trade orchestrator
(`src/services/market_service.py`) and settlement engine
(`src/services/settlement_service.py`).

Modelling conventions:
* Python `Decimal` values are modelled as exact rationals (`ℚ`).
* The floating-point sub-expressions of the source (the
  `Decimal(str((2*float(a)/3) * (x ** 1.5 - y ** 1.5)))` pipelines, the
  `sqrt` in `price` and the `exp` inside the sigmoid formula) are
  deterministic functions of their rational inputs; they are abstracted
  as the fields of a `FloatModel`, and every theorem that touches them is
  proved for an arbitrary `FloatModel`, so the results do not depend on
  any particular floating-point semantics.
* A raised Python exception is an `Except.error`; the distinct exception
  classes of the source are the constructors of the error types below.
* SQLAlchemy rows are plain Lean structures and tables are lists; the
  timestamp columns (`created_at`, `updated_at`, `executed_at`,
  `last_marked_at`, `settled_at`), which never influence control flow in
  the modelled code, are omitted.
* `db.session` is modelled where it matters (in `buy_shares`) as an
  explicit pair of committed/current stores: a `commit` publishes the
  current store, a `rollback` restores the committed one.
-/

deriving instance DecidableEq for Except

namespace F1Market

/-- Domain errors raised by `src/pricing/bonding_curve.py` (`ValueError`s). -/
inductive PErr where
  /-- "delta_s must be positive" -/
  | deltaNonpos : PErr
  /-- "Supply cannot be negative" -/
  | negSupply : PErr
  /-- "Cannot sell more shares than current supply" -/
  | oversell : PErr
deriving DecidableEq, Repr

/-- Exception taxonomy of the service layer
(`wallet_service.py`, `market_service.py`, `settlement_service.py`). -/
inductive TErr where
  /-- a `ValueError` raised by input validation -/
  | validation : TErr
  /-- "Market ... not found" -/
  | marketNotFound : TErr
  /-- `MarketClosedError` -/
  | marketClosed : TErr
  /-- `InsufficientBalanceError` -/
  | insufficientBalance : TErr
  /-- `InsufficientSharesError` -/
  | insufficientShares : TErr
  /-- a database `IntegrityError` surfaced at commit time -/
  | integrity : TErr
  /-- a `ValueError` propagated out of the bonding-curve functions -/
  | pricing : PErr → TErr
deriving DecidableEq, Repr

/-- Abstraction of the floating-point sub-computations of the source.
Each field is the exact rational value produced by one of the
float/`str`/`Decimal` round-trip pipelines, as a function of the exact
rational inputs fed into it.  All general theorems hold for every
`FloatModel`. -/
structure FloatModel where
  /-- `Decimal(str((2 * float(a) / 3) * (float(x) ** 1.5 - float(y) ** 1.5)))`
  as a function of `a`, `x`, `y`. -/
  ipart : ℚ → ℚ → ℚ → ℚ
  /-- `Decimal(str((2 * float(a) / 3) * (float(x) ** 1.5)))` as a function of
  `a`, `x`. -/
  ipart0 : ℚ → ℚ → ℚ
  /-- `Decimal(str(sqrt(float(s))))` as a function of `s`. -/
  fsqrt : ℚ → ℚ
  /-- `Decimal(str(1 / (1 + math.exp(-k * float(normalized)))))` as a function
  of `k` and `normalized`. -/
  sigmoidv : ℚ → ℚ → ℚ

/-- A trivial `FloatModel` used to instantiate concrete scenarios.  In every
concrete scenario below the curve slope `a` is `0`, for which the source's
float pipelines return exactly `0.0`, so this model agrees with the source
on those inputs. -/
def fmZero : FloatModel := ⟨fun _ _ _ => 0, fun _ _ => 0, fun _ => 0, fun _ _ => 0⟩

/-- `price(s, a, b)` from `src/pricing/bonding_curve.py`. -/
def price (fm : FloatModel) (s a b : ℚ) : Except PErr ℚ :=
  if s < 0 then .error .negSupply
  else if s = 0 then .ok b
  else .ok (a * fm.fsqrt s + b)

/-- `buy_cost(s, delta_s, a, b)` from `src/pricing/bonding_curve.py`. -/
def buy_cost (fm : FloatModel) (s delta_s a b : ℚ) : Except PErr ℚ :=
  if delta_s ≤ 0 then .error .deltaNonpos
  else if s < 0 then .error .negSupply
  else if s = 0 then .ok (fm.ipart0 a delta_s + b * delta_s)
  else .ok (fm.ipart a (s + delta_s) s + b * delta_s)

/-- `sell_payout(s, delta_s, a, b)` from `src/pricing/bonding_curve.py`. -/
def sell_payout (fm : FloatModel) (s delta_s a b : ℚ) : Except PErr ℚ :=
  if delta_s ≤ 0 then .error .deltaNonpos
  else if s < 0 then .error .negSupply
  else if s < delta_s then .error .oversell
  else if s = delta_s then .ok (fm.ipart0 a s + b * delta_s)
  else .ok (fm.ipart a s (s - delta_s) + b * delta_s)

/-- The `wallets` row of `src/db/models.py`: total balance and
locked balance of one user. -/
structure Wallet where
  balance : ℚ
  locked : ℚ
deriving DecidableEq, Repr

/-- A fresh wallet as created by `WalletService.get_or_create_wallet`:
`balance = locked_balance = 0`. -/
def freshWallet : Wallet := ⟨0, 0⟩

/-- The wallet mutation of `WalletService.lock_balance(user_id, amount)`:
requires `amount > 0` and `balance - locked ≥ amount`, then moves `amount`
into the locked balance. -/
def lock_balance (amount : ℚ) (w : Wallet) : Except TErr Wallet :=
  if amount ≤ 0 then .error .validation
  else if w.balance - w.locked < amount then .error .insufficientBalance
  else .ok { w with locked := w.locked + amount }

/-- The wallet mutation of `WalletService.unlock_balance(user_id, amount)`:
requires `amount > 0`; if `locked < amount` it clamps the locked balance to
`0`, otherwise subtracts `amount` from it. -/
def unlock_balance (amount : ℚ) (w : Wallet) : Except TErr Wallet :=
  if amount ≤ 0 then .error .validation
  else if w.locked < amount then .ok { w with locked := 0 }
  else .ok { w with locked := w.locked - amount }

/-- The wallet-balance update performed by
`WalletService.add_ledger_entry(user_id, amount, ...)`: for a debit
(`amount < 0`) it first draws down the locked balance (when positive) by
`min(locked, |amount|)` and then reduces `balance` by the remainder, when
the remainder is positive; for a credit it increases `balance`. -/
def applyEntry (amount : ℚ) (w : Wallet) : Wallet :=
  if amount < 0 then
    let absAmount := -amount
    let fromLocked := if 0 < w.locked then min w.locked absAmount else 0
    let remainder := absAmount - fromLocked
    { balance := if 0 < remainder then w.balance - remainder else w.balance,
      locked := w.locked - fromLocked }
  else
    { w with balance := w.balance + amount }

/-- One user's wallet together with the user's ledger-entry amounts, in
append order (the `amount` columns of the user's `ledger_entries` rows). -/
structure UserLedgerState where
  wallet : Wallet
  entries : List ℚ
deriving DecidableEq, Repr

/-- A fresh user state: fresh wallet, no ledger entries. -/
def freshUserState : UserLedgerState := ⟨freshWallet, []⟩

/-- `WalletService.add_ledger_entry` restricted to one user: appends the
immutable entry and applies the balance update.  It never raises. -/
def add_ledger_entry (amount : ℚ) (s : UserLedgerState) : UserLedgerState :=
  ⟨applyEntry amount s.wallet, s.entries ++ [amount]⟩

/-- One call into the wallet service, for a fixed user. -/
inductive WalletOp where
  | lock (amount : ℚ)
  | unlock (amount : ℚ)
  | addEntry (amount : ℚ)
deriving DecidableEq, Repr

/-- Apply one wallet-service call to a user's state. -/
def applyOp (s : UserLedgerState) : WalletOp → Except TErr UserLedgerState
  | .lock amount => (lock_balance amount s.wallet).map fun w => ⟨w, s.entries⟩
  | .unlock amount => (unlock_balance amount s.wallet).map fun w => ⟨w, s.entries⟩
  | .addEntry amount => .ok (add_ledger_entry amount s)

/-- Apply one wallet-service call; a raising call leaves the state
unchanged (both `lock_balance` and `unlock_balance` raise before any
mutation). -/
def applyOpT (s : UserLedgerState) (op : WalletOp) : UserLedgerState :=
  match applyOp s op with
  | .ok s' => s'
  | .error _ => s

/-- Run a sequence of wallet-service calls, failing on the first raising
call. -/
def runOps (s : UserLedgerState) : List WalletOp → Except TErr UserLedgerState
  | [] => .ok s
  | op :: rest => do runOps (← applyOp s op) rest

/-- Run a sequence of wallet-service calls; raising calls leave the state
unchanged and the sequence continues. -/
def runOpsT (s : UserLedgerState) : List WalletOp → UserLedgerState
  | [] => s
  | op :: rest => runOpsT (applyOpT s op) rest

/-! ## The persistent store of one event's market system

The rows read and written by `market_service.py` and
`settlement_service.py`, scoped to a single event (the settlement engine
operates on `Market.query.filter_by(event_id=...)`; modelling one event's
markets loses no generality for the claims below). -/

/-- `MarketStatus` from `src/db/models.py` (`open` is a Lean keyword, hence
`open_`). -/
inductive MarketStatus where
  | open_ : MarketStatus
  | closed : MarketStatus
  | settled : MarketStatus
deriving DecidableEq, Repr

/-- `EventStatus` from `src/db/models.py`. -/
inductive EventStatus where
  | upcoming : EventStatus
  | live : EventStatus
  | finished : EventStatus
deriving DecidableEq, Repr

/-- `AssetType` from `src/db/models.py`. -/
inductive AssetType where
  | participant : AssetType
  | team : AssetType
  | prop : AssetType
deriving DecidableEq, Repr

/-- `FormulaType` from `src/db/models.py`. -/
inductive FormulaType where
  | linearNormalized : FormulaType
  | sigmoid : FormulaType
  | piecewise : FormulaType
deriving DecidableEq, Repr

/-- `TransactionType` from `src/db/models.py`. -/
inductive TransactionType where
  | deposit : TransactionType
  | withdrawal : TransactionType
  | buy : TransactionType
  | sell : TransactionType
  | settlement : TransactionType
  | fee : TransactionType
deriving DecidableEq, Repr

/-- The fields of an `assets` row consulted by the settlement engine.
Database ids are positive, so the Python truthiness tests
`asset.participant_id` / `asset.team_id` are modelled as `Option`
presence. -/
structure SAsset where
  atype : AssetType
  participantId : Option ℕ
  teamId : Option ℕ
deriving DecidableEq, Repr

/-- The fields of a `scoring_rules` row consulted by
`SettlementService.compute_payout_per_share`; `configK` is the optional
`config_json['k']` sigmoid parameter. -/
structure SRule where
  maxScore : ℚ
  alpha : ℚ
  beta : ℚ
  formulaType : FormulaType
  configK : Option ℚ
deriving DecidableEq, Repr

/-- The fields of an `event_results` row consulted by the settlement
engine. -/
structure SResult where
  primaryScore : ℚ
deriving DecidableEq, Repr

/-- A `markets` row: status, bonding-curve parameters, and the related
asset and scoring rule (`None` models a dangling relationship, which the
settlement code guards against). -/
structure SMkt where
  id : ℕ
  status : MarketStatus
  a : ℚ
  b : ℚ
  asset : Option SAsset
  rule : Option SRule
deriving DecidableEq, Repr

/-- A `positions` row. -/
structure SPos where
  marketId : ℕ
  userId : ℕ
  shares : ℚ
  avgEntryPrice : ℚ
  realizedPnl : ℚ
deriving DecidableEq, Repr

/-- A `ledger_entries` row (user, signed amount, kind, market reference). -/
structure LEntry where
  userId : ℕ
  amount : ℚ
  ttype : TransactionType
  refMarket : Option ℕ
deriving DecidableEq, Repr

/-- A `trades` row. -/
structure TradeRec where
  marketId : ℕ
  buyerId : Option ℕ
  sellerId : Option ℕ
  tprice : ℚ
  quantity : ℚ
deriving DecidableEq, Repr

/-- The reason tag written into a `price_history` row. -/
inductive PHReason where
  | buyBy (userId : ℕ) : PHReason
  | sellBy (userId : ℕ) : PHReason
deriving DecidableEq, Repr

/-- A `price_history` row. -/
structure PHRec where
  marketId : ℕ
  hprice : ℚ
  reason : PHReason
deriving DecidableEq, Repr

/-- A `market_settlements` row. -/
structure SettlementRec where
  marketId : ℕ
  settlementPrice : ℚ
  payoutPerShare : ℚ
deriving DecidableEq, Repr

/-- The committed database state for one event's market system. -/
structure Store where
  eventStatus : EventStatus
  markets : List SMkt
  positions : List SPos
  wallets : List (ℕ × Wallet)
  ledger : List LEntry
  trades : List TradeRec
  history : List PHRec
  settlements : List SettlementRec
deriving DecidableEq, Repr

/-- Look up a market by id (`Market.query.get(market_id)`). -/
def findMarket (st : Store) (marketId : ℕ) : Option SMkt :=
  st.markets.find? fun m => m.id = marketId

/-- `get_current_supply(market_id)` from `src/pricing/bonding_curve.py`:
sum of all `Position.shares` for the market (`0` when there are none). -/
def get_current_supply (positions : List SPos) (marketId : ℕ) : ℚ :=
  ((positions.filter fun p => p.marketId = marketId).map SPos.shares).sum

/-- Look up a user's wallet, creating a fresh one when absent
(`WalletService.get_or_create_wallet`). -/
def getWallet (wallets : List (ℕ × Wallet)) (userId : ℕ) : Wallet :=
  match wallets.find? fun uw => uw.1 = userId with
  | some uw => uw.2
  | none => freshWallet

/-- Write back a user's wallet, appending the row when it did not exist. -/
def setWallet (wallets : List (ℕ × Wallet)) (userId : ℕ) (w : Wallet) :
    List (ℕ × Wallet) :=
  match wallets.find? fun uw => uw.1 = userId with
  | some _ => wallets.map fun uw => if uw.1 = userId then (userId, w) else uw
  | none => wallets ++ [(userId, w)]

/-- `WalletService.add_ledger_entry` at store level: appends the entry row
and applies the wallet-balance update for the named user. -/
def addLedgerEntryS (st : Store) (userId : ℕ) (amount : ℚ)
    (ttype : TransactionType) (refMarket : Option ℕ) : Store :=
  { st with
    wallets := setWallet st.wallets userId (applyEntry amount (getWallet st.wallets userId)),
    ledger := st.ledger ++ [⟨userId, amount, ttype, refMarket⟩] }

/-- `WalletService.lock_balance` at store level.  The `amount ≤ 0`
`ValueError` fires before the wallet is fetched; otherwise the returned
store contains the (possibly freshly created) wallet row — wallet creation
commits on its own — and the lock itself is applied only on success. -/
def lockBalanceS (st : Store) (userId : ℕ) (amount : ℚ) :
    Store × Except TErr Unit :=
  let w := getWallet st.wallets userId
  match lock_balance amount w with
  | .ok w' => ({ st with wallets := setWallet st.wallets userId w' }, .ok ())
  | .error .validation => (st, .error .validation)
  | .error e => ({ st with wallets := setWallet st.wallets userId w }, .error e)

/-- Replace the first element satisfying the predicate. -/
def updateFirst (p : α → Bool) (f : α → α) : List α → List α
  | [] => []
  | x :: xs => if p x then f x :: xs else x :: updateFirst p f xs

/-- Predicate matching the `(user_id, market_id)` position row. -/
def isPos (userId marketId : ℕ) (p : SPos) : Bool :=
  decide (p.userId = userId ∧ p.marketId = marketId)

/-- The position upsert of `MarketService.buy_shares`: a first buy creates
the row with `shares = quantity` and `avg_entry_price = cost / quantity`;
a later buy updates the shares-weighted average entry price. -/
def upsertPosition (st : Store) (userId marketId : ℕ) (quantity cost : ℚ) :
    Store :=
  match st.positions.find? (isPos userId marketId) with
  | none =>
      { st with positions :=
          st.positions ++ [⟨marketId, userId, quantity, cost / quantity, 0⟩] }
  | some _ =>
      let upd := fun (q : SPos) =>
        { q with
          shares := q.shares + quantity,
          avgEntryPrice :=
            (q.shares * q.avgEntryPrice + cost) / (q.shares + quantity) }
      { st with positions := updateFirst (isPos userId marketId) upd st.positions }

/-- The dict returned by a successful `MarketService.buy_shares` call
(the fields with numerical content). -/
structure BuyResult where
  cost : ℚ
  newSupply : ℚ
  newPrice : ℚ
deriving DecidableEq, Repr

/-- `MarketService.buy_shares(user_id, market_id, quantity)`.

The returned store is the state left **committed** by the call.  The
source's `lock_balance` and `add_ledger_entry` each call
`db.session.commit()` mid-way, so the model publishes those intermediate
states; `finalCommitFails` injects a failure (such as the
`IntegrityError` the source explicitly catches) at the final
`db.session.commit()`, after which the code rolls back to the last
committed state. -/
def buy_shares (fm : FloatModel) (finalCommitFails : Bool)
    (userId marketId : ℕ) (quantity : ℚ) (st : Store) :
    Store × Except TErr BuyResult :=
  if quantity ≤ 0 then (st, .error .validation)
  else
    match findMarket st marketId with
    | none => (st, .error .marketNotFound)
    | some m =>
      if m.status ≠ .open_ then (st, .error .marketClosed)
      else
        let supply := get_current_supply st.positions marketId
        match buy_cost fm supply quantity m.a m.b with
        | .error e => (st, .error (.pricing e))
        | .ok cost =>
          match lockBalanceS st userId cost with
          | (stL, .error e) => (stL, .error e)
          | (stL, .ok ()) =>
            -- pending in the session until `add_ledger_entry` commits:
            let cur := upsertPosition stL userId marketId quantity cost
            -- `add_ledger_entry` debits the wallet and commits:
            let committed := addLedgerEntryS cur userId (-cost) .buy (some marketId)
            match price fm (supply + quantity) m.a m.b with
            | .error e => (committed, .error (.pricing e))
            | .ok newPrice =>
              let final :=
                { committed with
                  trades := committed.trades ++
                    [⟨marketId, some userId, none, cost / quantity, quantity⟩],
                  history := committed.history ++
                    [⟨marketId, newPrice, .buyBy userId⟩] }
              if finalCommitFails then (committed, .error .integrity)
              else (final, .ok ⟨cost, supply + quantity, newPrice⟩)

/-- The dict returned by a successful `MarketService.sell_shares` call
(the fields with numerical content). -/
structure SellResult where
  payout : ℚ
  realizedPnl : ℚ
  newSupply : ℚ
  newPrice : ℚ
deriving DecidableEq, Repr

/-- `MarketService.sell_shares(user_id, market_id, quantity)`.  As in
`buy_shares` the returned store is the committed state; every error branch
of the source fires either before any mutation or (for the unreachable
`price` failure) after the `add_ledger_entry` commit. -/
def sell_shares (fm : FloatModel) (userId marketId : ℕ) (quantity : ℚ)
    (st : Store) : Store × Except TErr SellResult :=
  if quantity ≤ 0 then (st, .error .validation)
  else
    match findMarket st marketId with
    | none => (st, .error .marketNotFound)
    | some m =>
      if m.status ≠ .open_ then (st, .error .marketClosed)
      else
        match st.positions.find? (isPos userId marketId) with
        | none => (st, .error .insufficientShares)
        | some p =>
          if p.shares < quantity then (st, .error .insufficientShares)
          else
            let supply := get_current_supply st.positions marketId
            match sell_payout fm supply quantity m.a m.b with
            | .error e => (st, .error (.pricing e))
            | .ok payout =>
              let pnl := (payout / quantity - p.avgEntryPrice) * quantity
              let upd := fun (q : SPos) =>
                { q with
                  shares := q.shares - quantity,
                  realizedPnl := q.realizedPnl + pnl }
              let cur :=
                { st with positions :=
                    updateFirst (isPos userId marketId) upd st.positions }
              -- `add_ledger_entry` credits the payout and commits:
              let committed := addLedgerEntryS cur userId payout .sell (some marketId)
              match price fm (supply - quantity) m.a m.b with
              | .error e => (committed, .error (.pricing e))
              | .ok newPrice =>
                let final :=
                  { committed with
                    trades := committed.trades ++
                      [⟨marketId, none, some userId, payout / quantity, quantity⟩],
                    history := committed.history ++
                      [⟨marketId, newPrice, .sellBy userId⟩] }
                (final, .ok ⟨payout, pnl, supply - quantity, newPrice⟩)

/-! ## Settlement engine (`src/services/settlement_service.py`) -/

/-- `SettlementService.compute_payout_per_share(event_result, scoring_rule)`:
normalizes the primary score by `max_score` (a zero `max_score` raises a
`ValueError`), applies the tagged formula variant — `piecewise` currently
falls back to the linear formula — and floors the result at `0`. -/
def compute_payout_per_share (fm : FloatModel) (res : SResult) (rule : SRule) :
    Except TErr ℚ :=
  if rule.maxScore = 0 then .error .validation
  else
    let normalized := res.primaryScore / rule.maxScore
    let payout :=
      match rule.formulaType with
      | .linearNormalized => rule.alpha * normalized + rule.beta
      | .sigmoid => rule.alpha * fm.sigmoidv (rule.configK.getD 10) normalized + rule.beta
      | .piecewise => rule.alpha * normalized + rule.beta
    .ok (max payout 0)

/-- The `event_results` rows of the event, keyed by `participant_id`. -/
abbrev Results := List (ℕ × SResult)

/-- `EventResult.query.filter_by(event_id, participant_id).first()`. -/
def lookupResult (results : Results) (participantId : ℕ) : Option SResult :=
  (results.find? fun r => r.1 = participantId).map Prod.snd

/-- The market-selection predicate of `settle_event`: only markets
currently `OPEN` or `CLOSED` are settled. -/
def selectable (m : SMkt) : Bool :=
  match m.status with
  | .open_ => true
  | .closed => true
  | .settled => false

/-- The mutable data threaded through the settlement loop, plus the
`markets_settled` / `positions_settled` counters of the returned summary. -/
structure SettleAcc where
  positions : List SPos
  wallets : List (ℕ × Wallet)
  ledger : List LEntry
  settlements : List SettlementRec
  nMarkets : ℕ
  nPositions : ℕ
deriving DecidableEq, Repr

/-- The inner position loop of `settle_event`: every position of the market
with `shares > 0` is credited `shares * payout_per_share` through
`add_ledger_entry` and its shares are zeroed; other rows pass through. -/
def settlePositions (marketId : ℕ) (pps : ℚ) :
    List SPos → List (ℕ × Wallet) → List LEntry →
    List SPos × List (ℕ × Wallet) × List LEntry × ℕ
  | [], ws, led => ([], ws, led, 0)
  | p :: rest, ws, led =>
    if p.marketId = marketId ∧ 0 < p.shares then
      let gross := p.shares * pps
      let ws1 := setWallet ws p.userId (applyEntry gross (getWallet ws p.userId))
      let led1 := led ++ [⟨p.userId, gross, .settlement, some marketId⟩]
      let (ps', ws', led', n) := settlePositions marketId pps rest ws1 led1
      ({ p with shares := 0 } :: ps', ws', led', n + 1)
    else
      let (ps', ws', led', n) := settlePositions marketId pps rest ws led
      (p :: ps', ws', led', n)

/-- The per-market body of `settle_event`'s loop, for an already selected
market: markets with no asset, a team or prop asset, a participant asset
without a participant id, no event result or no scoring rule are skipped
(`continue`); otherwise the payout per share and the pre-settlement price
are computed, a `MarketSettlement` row is recorded, the market is marked
`SETTLED` and every open position is paid out. -/
def processMarket (fm : FloatModel) (results : Results) (m : SMkt)
    (acc : SettleAcc) : Except TErr (SMkt × SettleAcc) :=
  match m.asset with
  | none => .ok (m, acc)
  | some asset =>
    match asset.atype, asset.participantId with
    | .participant, some pid =>
      match lookupResult results pid with
      | none => .ok (m, acc)
      | some res =>
        match m.rule with
        | none => .ok (m, acc)
        | some rule => do
          let pps ← compute_payout_per_share fm res rule
          let supply := get_current_supply acc.positions m.id
          let sp ← (price fm supply m.a m.b).mapError TErr.pricing
          let (ps', ws', led', n) :=
            settlePositions m.id pps acc.positions acc.wallets acc.ledger
          .ok ({ m with status := .settled },
               { positions := ps', wallets := ws', ledger := led',
                 settlements := acc.settlements ++ [⟨m.id, sp, pps⟩],
                 nMarkets := acc.nMarkets + 1, nPositions := acc.nPositions + n })
    | .team, _ => .ok (m, acc)
    | _, _ => .ok (m, acc)

/-- The settlement loop over the event's markets: the `OPEN`/`CLOSED` ones
(the selection the source computes up front) are processed, the rest pass
through unchanged. -/
def settleLoop (fm : FloatModel) (results : Results) :
    List SMkt → SettleAcc → Except TErr (List SMkt × SettleAcc)
  | [], acc => .ok ([], acc)
  | m :: ms, acc =>
    if selectable m then do
      let (m', acc') ← processMarket fm results m acc
      let (ms', acc'') ← settleLoop fm results ms acc'
      .ok (m' :: ms', acc'')
    else do
      let (ms', acc'') ← settleLoop fm results ms acc
      .ok (m :: ms', acc'')

/-- The summary dict returned by `settle_event`. -/
structure SettleSummary where
  marketsSettled : ℕ
  positionsSettled : ℕ
deriving DecidableEq, Repr

/-- `SettlementService.settle_event(event_id)`.  When no market of the
event is `OPEN` or `CLOSED` the call returns at once without touching the
event; otherwise the loop runs, the event is marked `FINISHED` and
everything commits.  The error branch returns the original store: the
enclosing `try`/`except` rolls the transaction back (this matches the
source exactly for failures that occur before the first position credit,
which covers every error scenario used below). -/
def settle_event (fm : FloatModel) (results : Results) (st : Store) :
    Store × Except TErr SettleSummary :=
  if (st.markets.filter selectable).isEmpty then (st, .ok ⟨0, 0⟩)
  else
    match settleLoop fm results st.markets
        ⟨st.positions, st.wallets, st.ledger, st.settlements, 0, 0⟩ with
    | .ok (ms', acc) =>
      ({ st with
          eventStatus := .finished,
          markets := ms',
          positions := acc.positions,
          wallets := acc.wallets,
          ledger := acc.ledger,
          settlements := acc.settlements },
       .ok ⟨acc.nMarkets, acc.nPositions⟩)
    | .error e => (st, .error e)

/-! ## Concrete stores used by the scenario theorems

In all of them the curve slope `a` is `0`, so the floating-point
sub-computations of the source are exactly `0.0` and `fmZero` models them
faithfully. -/

/-- A store with one open market (`a = 0`, `b = 1`) and one user (id `1`)
holding a wallet of `100` with nothing locked. -/
def buyDemoStore : Store :=
  { eventStatus := .live,
    markets := [⟨1, .open_, 0, 1, none, none⟩],
    positions := [], wallets := [(1, ⟨100, 0⟩)], ledger := [],
    trades := [], history := [], settlements := [] }

/-- Scenario B of the spec: one open market on participant `7` with a
linear-normalized rule (`alpha = 1`, `beta = 0`, `max_score = 25`) and a
position of 10 shares held by user `3`. -/
def settleDemoStore : Store :=
  { eventStatus := .live,
    markets := [⟨1, .open_, 0, 1, some ⟨.participant, some 7, none⟩,
                 some ⟨25, 1, 0, .linearNormalized, none⟩⟩],
    positions := [⟨1, 3, 10, 1, 0⟩], wallets := [(3, ⟨0, 0⟩)], ledger := [],
    trades := [], history := [], settlements := [] }

/-- The event result for `settleDemoStore`: participant `7` scored `25`. -/
def settleDemoResults : Results := [(7, ⟨25⟩)]

/-- A store with one open market (`a = 0`, `b = 1`) where user `1` holds a
position of `5` shares. -/
def sellDemoStore : Store :=
  { eventStatus := .live,
    markets := [⟨1, .open_, 0, 1, none, none⟩],
    positions := [⟨1, 1, 5, 1, 0⟩], wallets := [(1, ⟨0, 0⟩)], ledger := [],
    trades := [], history := [], settlements := [] }

/-- Like `settleDemoStore` but the scoring rule has `max_score = 0`, which
makes `compute_payout_per_share` raise. -/
def maxScoreZeroStore : Store :=
  { eventStatus := .live,
    markets := [⟨1, .open_, 0, 1, some ⟨.participant, some 7, none⟩,
                 some ⟨0, 1, 0, .linearNormalized, none⟩⟩],
    positions := [], wallets := [], ledger := [],
    trades := [], history := [], settlements := [] }

/-! ## Settlement loop lemmas -/

/-- Reduction of the `Except` monad bind on a success value. -/
theorem except_bind_ok {ε α β : Type} (a : α) (f : α → Except ε β) :
    Except.ok a >>= f = f a := rfl

/-- Reduction of the `Except` monad bind on an error value. -/
theorem except_bind_error {ε α β : Type} (e : ε) (f : α → Except ε β) :
    (Except.error e : Except ε α) >>= f = Except.error e := rfl

/-- `Except.mapError` on a success value. -/
theorem except_mapError_ok {ε ξ α : Type} (a : α) (f : ε → ξ) :
    (Except.ok a : Except ε α).mapError f = Except.ok a := rfl

/-- `Except.mapError` on an error value. -/
theorem except_mapError_error {ε ξ α : Type} (e : ε) (f : ε → ξ) :
    (Except.error e : Except ε α).mapError f = Except.error (f e) := rfl

/-- A market the settlement loop would skip (`continue`): no asset, a team
or prop asset, a participant asset without a participant id, no event
result for the participant, or no scoring rule. -/
def skipsMarket (results : Results) (m : SMkt) : Bool :=
  match m.asset with
  | none => true
  | some asset =>
    match asset.atype, asset.participantId with
    | .participant, some pid =>
      match lookupResult results pid with
      | none => true
      | some _ => m.rule.isNone
    | _, _ => true

/-- Processing a skippable market changes nothing. -/
theorem processMarket_of_skips (fm : FloatModel) (results : Results)
    (m : SMkt) (acc : SettleAcc) (h : skipsMarket results m = true) :
    processMarket fm results m acc = .ok (m, acc) := by
  obtain ⟨mid, mstatus, ma, mb, masset, mrule⟩ := m
  unfold skipsMarket at h
  cases masset with
  | none => rfl
  | some asset =>
    obtain ⟨atype, pId, tId⟩ := asset
    cases atype with
    | team => rfl
    | prop => rfl
    | participant =>
      cases pId with
      | none => rfl
      | some pid =>
        cases hL : lookupResult results pid with
        | none => simp [processMarket, hL]
        | some res =>
          simp only [hL, Option.isNone_iff_eq_none] at h
          subst h
          simp [processMarket, hL]

/-- A successfully processed market either was skippable and passed
through untouched, or came out `SETTLED`. -/
theorem processMarket_ok_cases {fm : FloatModel} {results : Results}
    {m m' : SMkt} {acc acc' : SettleAcc}
    (h : processMarket fm results m acc = .ok (m', acc')) :
    (m' = m ∧ acc' = acc ∧ skipsMarket results m = true) ∨
      m'.status = .settled := by
  obtain ⟨mid, mstatus, ma, mb, masset, mrule⟩ := m
  cases masset with
  | none =>
    simp only [processMarket, Except.ok.injEq, Prod.mk.injEq] at h
    exact Or.inl ⟨h.1.symm, h.2.symm, rfl⟩
  | some asset =>
    obtain ⟨atype, pId, tId⟩ := asset
    cases atype with
    | team =>
      simp only [processMarket, Except.ok.injEq, Prod.mk.injEq] at h
      exact Or.inl ⟨h.1.symm, h.2.symm, rfl⟩
    | prop =>
      simp only [processMarket, Except.ok.injEq, Prod.mk.injEq] at h
      exact Or.inl ⟨h.1.symm, h.2.symm, rfl⟩
    | participant =>
      cases pId with
      | none =>
        simp only [processMarket, Except.ok.injEq, Prod.mk.injEq] at h
        exact Or.inl ⟨h.1.symm, h.2.symm, rfl⟩
      | some pid =>
        cases hL : lookupResult results pid with
        | none =>
          simp only [processMarket, hL, Except.ok.injEq, Prod.mk.injEq] at h
          refine Or.inl ⟨h.1.symm, h.2.symm, ?_⟩
          simp [skipsMarket, hL]
        | some res =>
          cases mrule with
          | none =>
            simp only [processMarket, hL, Except.ok.injEq, Prod.mk.injEq] at h
            refine Or.inl ⟨h.1.symm, h.2.symm, ?_⟩
            simp [skipsMarket, hL]
          | some rule =>
            simp only [processMarket, hL] at h
            cases hPP : compute_payout_per_share fm res rule with
            | error e =>
              rw [hPP] at h
              simp only [except_bind_error] at h
              exact Except.noConfusion h
            | ok pps =>
              rw [hPP] at h
              simp only [except_bind_ok] at h
              cases hPr : price fm
                  (get_current_supply acc.positions mid) ma mb with
              | error e =>
                rw [hPr] at h
                simp only [except_mapError_error, except_bind_error] at h
                exact Except.noConfusion h
              | ok sp =>
                rw [hPr] at h
                simp only [except_mapError_ok, except_bind_ok,
                  Except.ok.injEq, Prod.mk.injEq] at h
                right
                rw [← h.1]

/-- Every market left `OPEN`/`CLOSED` by a successful settlement loop is
skippable. -/
theorem settleLoop_selectable_skips (fm : FloatModel) (results : Results) :
    ∀ (ms : List SMkt) (acc : SettleAcc) (ms' : List SMkt) (acc' : SettleAcc),
    settleLoop fm results ms acc = .ok (ms', acc') →
    ∀ m' ∈ ms', selectable m' = true → skipsMarket results m' = true := by
  intro ms
  induction ms with
  | nil =>
    intro acc ms' acc' h m' hm' _
    simp only [settleLoop, Except.ok.injEq, Prod.mk.injEq] at h
    rw [← h.1] at hm'
    simp at hm'
  | cons m ms ih =>
    intro acc ms' acc' h m' hm' hsel
    unfold settleLoop at h
    by_cases hs : selectable m = true
    · rw [if_pos hs] at h
      cases hPM : processMarket fm results m acc with
      | error e =>
        rw [hPM] at h
        simp only [except_bind_error] at h
        exact Except.noConfusion h
      | ok p =>
        obtain ⟨m1, acc1⟩ := p
        rw [hPM] at h
        simp only [except_bind_ok] at h
        cases hSL : settleLoop fm results ms acc1 with
        | error e =>
          rw [hSL] at h
          simp only [except_bind_error] at h
          exact Except.noConfusion h
        | ok q =>
          obtain ⟨ms1, acc2⟩ := q
          rw [hSL] at h
          simp only [except_bind_ok, Except.ok.injEq, Prod.mk.injEq] at h
          rw [← h.1] at hm'
          rcases List.mem_cons.mp hm' with rfl | hmem
          · rcases processMarket_ok_cases hPM with ⟨rfl, -, hsk⟩ | hset
            · exact hsk
            · rw [selectable, hset] at hsel; cases hsel
          · exact ih acc1 ms1 acc2 hSL m' hmem hsel
    · rw [if_neg hs] at h
      cases hSL : settleLoop fm results ms acc with
      | error e =>
        rw [hSL] at h
        simp only [except_bind_error] at h
        exact Except.noConfusion h
      | ok q =>
        obtain ⟨ms1, acc2⟩ := q
        rw [hSL] at h
        simp only [except_bind_ok, Except.ok.injEq, Prod.mk.injEq] at h
        rw [← h.1] at hm'
        rcases List.mem_cons.mp hm' with rfl | hmem
        · exact absurd hsel hs
        · exact ih acc ms1 acc2 hSL m' hmem hsel

/-- A settlement loop over markets that are all either non-selectable or
skippable is the identity. -/
theorem settleLoop_all_skips (fm : FloatModel) (results : Results) :
    ∀ (ms : List SMkt) (acc : SettleAcc),
    (∀ m ∈ ms, selectable m = true → skipsMarket results m = true) →
    settleLoop fm results ms acc = .ok (ms, acc) := by
  intro ms
  induction ms with
  | nil => intro acc _; rfl
  | cons m ms ih =>
    intro acc h
    unfold settleLoop
    by_cases hs : selectable m = true
    · rw [if_pos hs,
        processMarket_of_skips fm results m acc (h m (List.mem_cons_self m ms) hs)]
      simp only [except_bind_ok]
      rw [ih acc fun x hx => h x (List.mem_cons_of_mem m hx)]
      simp only [except_bind_ok]
    · rw [if_neg hs]
      rw [ih acc fun x hx => h x (List.mem_cons_of_mem m hx)]
      simp only [except_bind_ok]

/-! ## The wallet invariant -/

/-- The §3/§4 wallet invariant: `balance ≥ locked_balance ≥ 0`. -/
def WalletInv (w : Wallet) : Prop :=
  0 ≤ w.locked ∧ w.locked ≤ w.balance

/-- A wallet-service call is covered when, if it is a debit, its magnitude
does not exceed `balance + locked` (which is what the code's
double-counting debit path can absorb without driving the balance
negative).  Every debit issued by the trading code is covered: a buy
debits exactly the amount it just locked, and sells/settlements are
credits. -/
def coveredOp (s : UserLedgerState) : WalletOp → Bool
  | .addEntry amount =>
      decide (amount < 0 → -amount ≤ s.wallet.balance + s.wallet.locked)
  | _ => true

/-- All calls of the sequence are covered at the state where they run. -/
def covered (s : UserLedgerState) : List WalletOp → Bool
  | [] => true
  | op :: rest => coveredOp s op && covered (applyOpT s op) rest

/-- One covered wallet-service call preserves the wallet invariant. -/
theorem applyOpT_preserves_inv (s : UserLedgerState) (op : WalletOp)
    (hInv : WalletInv s.wallet) (hCov : coveredOp s op = true) :
    WalletInv (applyOpT s op).wallet := by
  obtain ⟨h0, hlb⟩ := hInv
  cases op with
  | lock amount =>
      by_cases h1 : amount ≤ 0
      · simpa [applyOpT, applyOp, lock_balance, h1, WalletInv] using ⟨h0, hlb⟩
      · by_cases h2 : s.wallet.balance - s.wallet.locked < amount
        · simpa [applyOpT, applyOp, lock_balance, h1, h2, WalletInv] using ⟨h0, hlb⟩
        · simp only [applyOpT, applyOp, lock_balance, if_neg h1, if_neg h2,
            Except.map, WalletInv]
          exact ⟨by linarith [not_le.mp h1], by linarith [not_lt.mp h2]⟩
  | unlock amount =>
      by_cases h1 : amount ≤ 0
      · simpa [applyOpT, applyOp, unlock_balance, h1, WalletInv] using ⟨h0, hlb⟩
      · by_cases h2 : s.wallet.locked < amount
        · simp only [applyOpT, applyOp, unlock_balance, if_neg h1, if_pos h2,
            Except.map, WalletInv]
          exact ⟨le_refl 0, by linarith⟩
        · simp only [applyOpT, applyOp, unlock_balance, if_neg h1, if_neg h2,
            Except.map, WalletInv]
          exact ⟨by linarith [not_lt.mp h2], by linarith [not_le.mp h1]⟩
  | addEntry amount =>
      have hc : amount < 0 → -amount ≤ s.wallet.balance + s.wallet.locked := by
        have := of_decide_eq_true hCov
        exact this
      by_cases hneg : amount < 0
      · have hc' := hc hneg
        simp only [applyOpT, applyOp, add_ledger_entry, applyEntry,
          if_pos hneg, WalletInv, min_def]
        split_ifs <;> exact ⟨by linarith, by linarith⟩
      · simp only [applyOpT, applyOp, add_ledger_entry, applyEntry,
          if_neg hneg, WalletInv]
        exact ⟨h0, by linarith [not_lt.mp hneg]⟩

/-- A covered sequence of wallet-service calls preserves the wallet
invariant. -/
theorem runOpsT_preserves_inv (ops : List WalletOp) :
    ∀ s : UserLedgerState, WalletInv s.wallet → covered s ops = true →
    WalletInv (runOpsT s ops).wallet := by
  induction ops with
  | nil => intro s h _; simpa [runOpsT] using h
  | cons op rest ih =>
      intro s h hcov
      simp only [covered, Bool.and_eq_true] at hcov
      simp only [runOpsT]
      exact ih _ (applyOpT_preserves_inv s op h hcov.1) hcov.2

/-! ## Claim theorems -/

/-- C6: round-trip neutrality of the bonding curve.  For every model of the
floating-point sub-computations, every `a`, `b`, every `s ≥ 0` and every
`Δs > 0`, `sell_payout(s + Δs, Δs, a, b)` returns exactly
`buy_cost(s, Δs, a, b)`: both calls evaluate the identical arithmetic on
the identical inputs (the `s = 0` buy branch aligns with the sell-all
branch, and `(s + Δs) - Δs = s`). -/
theorem sell_after_buy_roundtrip_neutral (fm : FloatModel) (s delta_s a b : ℚ)
    (hs : 0 ≤ s) (hd : 0 < delta_s) :
    sell_payout fm (s + delta_s) delta_s a b = buy_cost fm s delta_s a b := by
  have hd' : ¬ delta_s ≤ 0 := not_le.mpr hd
  have hsum : ¬ s + delta_s < 0 := not_lt.mpr (by linarith)
  have hover : ¬ s + delta_s < delta_s := not_lt.mpr (by linarith)
  have hbneg : ¬ s < 0 := not_lt.mpr hs
  by_cases h0 : s = 0
  · subst h0
    simp [sell_payout, buy_cost, hd', hsum, hover, hd.le]
  · have hne : ¬ s + delta_s = delta_s := fun h => h0 (by linarith)
    simp only [sell_payout, buy_cost, if_neg hd', if_neg hsum, if_neg hover,
      if_neg hne, if_neg hbneg, if_neg h0, add_sub_cancel_right]

/-- Witness for C6 at `s = 1`, `Δs = 2`, `a = 3`, `b = 4`. -/
theorem sell_after_buy_roundtrip_neutral_witness :
    (0 : ℚ) ≤ 1 ∧ (0 : ℚ) < 2 ∧
    sell_payout fmZero (1 + 2) 2 3 4 = buy_cost fmZero 1 2 3 4 :=
  ⟨by norm_num, by norm_num,
   sell_after_buy_roundtrip_neutral fmZero 1 2 3 4 (by norm_num) (by norm_num)⟩

/-- C7: `sell_payout(s, Δs, a, b)` fails with a domain error exactly when
`Δs ≤ 0`, `s < 0`, or `Δs > s`, and otherwise returns a value; in
particular selling 11 shares at supply 10 fails with the over-sell domain
error. -/
theorem sell_payout_domain (fm : FloatModel) (s delta_s a b : ℚ) :
    ((∃ v, sell_payout fm s delta_s a b = .ok v) ↔
      ¬(delta_s ≤ 0 ∨ s < 0 ∨ delta_s > s)) ∧
    sell_payout fm 10 11 a b = .error .oversell := by
  constructor
  · unfold sell_payout
    split_ifs with h1 h2 h3 h4 <;> simp_all
  · norm_num [sell_payout]

/-- C8 counterexample: `unlock_balance` does raise — amount `0` hits the
`amount ≤ 0` `ValueError`, so it is not the case that it never raises for
every amount. -/
theorem unlock_balance_zero_raises :
    unlock_balance 0 ⟨10, 3⟩ = .error .validation := by decide

/-- C8 (amended): for every wallet and every `amount > 0`,
`unlock_balance` never raises; it clamps the release at the current locked
balance (leaving `locked = 0` when `locked < amount`) and never changes
the total balance. -/
theorem unlock_balance_defensive (w : Wallet) (amount : ℚ) (h : 0 < amount) :
    unlock_balance amount w =
      .ok ⟨w.balance, if w.locked < amount then 0 else w.locked - amount⟩ := by
  unfold unlock_balance
  rw [if_neg (not_le.mpr h)]
  split_ifs <;> rfl

/-- Witness for C8 (amended) at `amount = 5` on a wallet with `locked = 3`:
the release clamps to `3` and the balance is untouched. -/
theorem unlock_balance_defensive_witness :
    (0 : ℚ) < 5 ∧ unlock_balance 5 ⟨10, 3⟩ = .ok ⟨10, 0⟩ := by
  refine ⟨by norm_num, ?_⟩
  rw [unlock_balance_defensive ⟨10, 3⟩ 5 (by norm_num)]
  norm_num

/-- C3 counterexample: starting from a fresh wallet, the single call
`add_ledger_entry(-5)` completes without any error — the code performs no
consistency check at all — and leaves `balance = -5 < 0 = locked_balance`,
violating `balance ≥ locked_balance ≥ 0` silently rather than surfacing an
internal-consistency error. -/
theorem wallet_invariant_violated_silently :
    runOps freshUserState [WalletOp.addEntry (-5)] = .ok ⟨⟨-5, 0⟩, [-5]⟩ ∧
    ¬ WalletInv ⟨-5, 0⟩ := by
  constructor
  · norm_num [runOps, applyOp, add_ledger_entry, applyEntry, freshUserState,
      freshWallet, Except.instMonad, Except.bind, min_def]
  · norm_num [WalletInv]

/-- C3 (amended): after any sequence of `lock_balance` / `unlock_balance` /
`add_ledger_entry` calls on a wallet starting at `balance = locked = 0`, in
which every debit's magnitude is at most `balance + locked_balance` at the
time of the call, the wallet satisfies `balance ≥ locked_balance ≥ 0`
(raising calls leave the wallet untouched).  The code never checks this
post-condition: an uncovered debit drives the balance negative silently
instead of raising an internal-consistency error. -/
theorem wallet_invariant_under_covered_ops (ops : List WalletOp)
    (h : covered freshUserState ops = true) :
    WalletInv (runOpsT freshUserState ops).wallet :=
  runOpsT_preserves_inv ops freshUserState ⟨le_refl 0, le_refl 0⟩ h

/-- Witness for C3 (amended): deposit `+10`, lock `5`, debit `-5`,
unlock `3` is a covered sequence and the invariant holds afterwards. -/
theorem wallet_invariant_under_covered_ops_witness :
    covered freshUserState
      [WalletOp.addEntry 10, WalletOp.lock 5, WalletOp.addEntry (-5),
       WalletOp.unlock 3] = true ∧
    WalletInv (runOpsT freshUserState
      [WalletOp.addEntry 10, WalletOp.lock 5, WalletOp.addEntry (-5),
       WalletOp.unlock 3]).wallet := by
  have hcov : covered freshUserState
      [WalletOp.addEntry 10, WalletOp.lock 5, WalletOp.addEntry (-5),
       WalletOp.unlock 3] = true := by
    norm_num [covered, coveredOp, applyOpT, applyOp, lock_balance,
      unlock_balance, add_ledger_entry, applyEntry, freshUserState,
      freshWallet, Except.map, min_def]
  exact ⟨hcov, wallet_invariant_under_covered_ops _ hcov⟩

/-- C1 at its failing input: starting from a fresh wallet, the sequence
deposit `+10`, `lock 5`, debit `-5` (exactly the ledger traffic of a buy
of cost 5) completes without error, yet the ledger entries sum to `5`
while the wallet balance is still `10` — the debit consumed only the lock
and never reduced the balance, so `Σ LedgerEntry.amount ≠ balance`. -/
theorem ledger_sum_diverges_from_balance :
    runOps freshUserState
      [WalletOp.addEntry 10, WalletOp.lock 5, WalletOp.addEntry (-5)] =
      .ok ⟨⟨10, 0⟩, [10, -5]⟩ ∧
    ([(10 : ℚ), -5].sum = 5 ∧ (5 : ℚ) ≠ 10) := by
  norm_num [runOps, applyOp, lock_balance, add_ledger_entry, applyEntry,
    freshUserState, freshWallet, Except.instMonad, Except.bind, Except.map,
    min_def]

/-- C2 at its failing input: `buy_shares(user 1, market 1, qty 4)` on a
market with `a = 0`, `b = 1` (cost `4`) where the final
`db.session.commit()` raises.  Because `lock_balance` and
`add_ledger_entry` each committed mid-call, the rollback leaves the ledger
debit and the position upsert durably visible while the trade and
price-history rows are lost — the call fails but state is not restored. -/
theorem buy_failure_leaves_partial_state :
    (buy_shares fmZero true 1 1 4 buyDemoStore).2 = .error .integrity ∧
    (buy_shares fmZero true 1 1 4 buyDemoStore).1.ledger =
      [⟨1, -4, .buy, some 1⟩] ∧
    (buy_shares fmZero true 1 1 4 buyDemoStore).1.positions =
      [⟨1, 1, 4, 1, 0⟩] ∧
    (buy_shares fmZero true 1 1 4 buyDemoStore).1.trades = [] ∧
    (buy_shares fmZero true 1 1 4 buyDemoStore).1 ≠ buyDemoStore := by
  norm_num [buy_shares, buyDemoStore, findMarket, get_current_supply, buy_cost,
    fmZero, lockBalanceS, lock_balance, getWallet, setWallet, upsertPosition,
    addLedgerEntryS, applyEntry, price, isPos, List.find?, updateFirst,
    freshWallet, min_def]

/-- C4: for a linear-normalized scoring rule, `compute_payout_per_share`
returns `max(alpha * (primary_score / max_score) + beta, 0)` (`max_score`
must be nonzero, else the code raises); in particular `alpha = 1`,
`beta = 0`, `max_score = 25`, `primary_score = 25` gives exactly `1`, and
settling Scenario B's market credits the 10-share position with a single
Settlement ledger entry of exactly `10` while zeroing the position's
shares. -/
theorem linear_payout_and_settlement_credit :
    (∀ (fm : FloatModel) (res : SResult) (rule : SRule),
        rule.formulaType = .linearNormalized → rule.maxScore ≠ 0 →
        compute_payout_per_share fm res rule =
          .ok (max (rule.alpha * (res.primaryScore / rule.maxScore) + rule.beta) 0)) ∧
    compute_payout_per_share fmZero ⟨25⟩ ⟨25, 1, 0, .linearNormalized, none⟩ =
      .ok 1 ∧
    (settle_event fmZero settleDemoResults settleDemoStore).1.ledger =
      [⟨3, 10, .settlement, some 1⟩] ∧
    (settle_event fmZero settleDemoResults settleDemoStore).1.positions =
      [⟨1, 3, 0, 1, 0⟩] := by
  refine ⟨fun fm res rule hft hms => ?_, ?_, ?_, ?_⟩
  · simp [compute_payout_per_share, if_neg hms, hft]
  · norm_num [compute_payout_per_share]
  · norm_num [settle_event, settleLoop, processMarket, selectable,
      compute_payout_per_share, lookupResult, get_current_supply,
      settlePositions, getWallet, setWallet, applyEntry, price, fmZero,
      settleDemoStore, settleDemoResults, List.find?, Except.instMonad,
      Except.bind, Except.mapError, min_def]
  · norm_num [settle_event, settleLoop, processMarket, selectable,
      compute_payout_per_share, lookupResult, get_current_supply,
      settlePositions, getWallet, setWallet, applyEntry, price, fmZero,
      settleDemoStore, settleDemoResults, List.find?, Except.instMonad,
      Except.bind, Except.mapError, min_def]

/-- Witness for C4's linear-formula clause at `alpha = 2`, `beta = 3`,
`max_score = 25`, `primary_score = 25`. -/
theorem linear_payout_and_settlement_credit_witness :
    (SRule.mk 25 2 3 .linearNormalized none).formulaType = .linearNormalized ∧
    (25 : ℚ) ≠ 0 ∧
    compute_payout_per_share fmZero ⟨25⟩ ⟨25, 2, 3, .linearNormalized, none⟩ =
      .ok (max (2 * ((25 : ℚ) / 25) + 3) 0) :=
  ⟨rfl, by norm_num,
   linear_payout_and_settlement_credit.1 fmZero ⟨25⟩
     ⟨25, 2, 3, .linearNormalized, none⟩ rfl (by norm_num)⟩

/-- The first settlement of Scenario B's store settles its one market and
one position, leaving the post-settlement store; used to instantiate the
settlement theorems at a concrete input. -/
theorem settleDemo_first_call :
    settle_event fmZero settleDemoResults settleDemoStore =
      ((settle_event fmZero settleDemoResults settleDemoStore).1, .ok ⟨1, 1⟩) := by
  have h2 : (settle_event fmZero settleDemoResults settleDemoStore).2 =
      .ok ⟨1, 1⟩ := by
    norm_num [settle_event, settleLoop, processMarket, selectable,
      compute_payout_per_share, lookupResult, get_current_supply,
      settlePositions, getWallet, setWallet, applyEntry, price, fmZero,
      settleDemoStore, settleDemoResults, List.find?, Except.instMonad,
      Except.bind, Except.mapError, min_def]
  rw [← h2]

/-- C5: settlement is idempotent.  If a `settle_event` call completes
(returns a summary) leaving state `st1`, the immediately following
`settle_event` on `st1` settles zero markets and zero positions and
returns `st1` unchanged: no new `MarketSettlement` rows, ledger entries or
position changes — settled markets are no longer selected, and the
still-`OPEN` leftovers are skipped again for the same reasons as before. -/
theorem settle_event_idempotent (fm : FloatModel) (results : Results)
    (st st1 : Store) (r1 : SettleSummary)
    (h : settle_event fm results st = (st1, .ok r1)) :
    settle_event fm results st1 = (st1, .ok ⟨0, 0⟩) := by
  unfold settle_event at h
  by_cases h0 : (st.markets.filter selectable).isEmpty = true
  · rw [if_pos h0] at h
    have hst1 : st1 = st := (congrArg Prod.fst h).symm
    subst hst1
    unfold settle_event
    rw [if_pos h0]
  · rw [if_neg h0] at h
    cases hSL : settleLoop fm results st.markets
        ⟨st.positions, st.wallets, st.ledger, st.settlements, 0, 0⟩ with
    | error e =>
      rw [hSL] at h
      exact absurd (congrArg Prod.snd h) (by simp)
    | ok p =>
      obtain ⟨ms', acc⟩ := p
      rw [hSL] at h
      have hst1 : st1 =
          { st with
              eventStatus := .finished, markets := ms',
              positions := acc.positions, wallets := acc.wallets,
              ledger := acc.ledger, settlements := acc.settlements } :=
        (congrArg Prod.fst h).symm
      subst hst1
      have hall : ∀ m' ∈ ms', selectable m' = true →
          skipsMarket results m' = true :=
        settleLoop_selectable_skips fm results st.markets _ ms' acc hSL
      unfold settle_event
      by_cases h1 : (ms'.filter selectable).isEmpty = true
      · rw [if_pos h1]
      · rw [if_neg h1, settleLoop_all_skips fm results ms' _ hall]

/-- Witness for C5 on Scenario B's store: the second settlement is a
no-op. -/
theorem settle_event_idempotent_witness :
    settle_event fmZero settleDemoResults
        (settle_event fmZero settleDemoResults settleDemoStore).1 =
      ((settle_event fmZero settleDemoResults settleDemoStore).1, .ok ⟨0, 0⟩) :=
  settle_event_idempotent fmZero settleDemoResults settleDemoStore _ ⟨1, 1⟩
    settleDemo_first_call

/-- C10 counterexample: on a store with one `OPEN` market whose scoring
rule has `max_score = 0`, `settle_event` raises (payout computation fails)
and rolls back, so the event is *not* transitioned to `Finished` even
though an `OPEN` market existed at the start of the call — refuting the
claimed "if and only if". -/
theorem settle_event_error_leaves_event_unfinished :
    settle_event fmZero settleDemoResults maxScoreZeroStore =
      (maxScoreZeroStore, .error .validation) ∧
    (∃ m ∈ maxScoreZeroStore.markets, selectable m = true) ∧
    maxScoreZeroStore.eventStatus ≠ .finished := by
  refine ⟨?_, ⟨_, List.mem_cons_self _ _, rfl⟩, by decide⟩
  norm_num [settle_event, settleLoop, processMarket, selectable,
    compute_payout_per_share, lookupResult, maxScoreZeroStore,
    settleDemoResults, List.find?, Except.instMonad, Except.bind,
    Except.mapError]

/-- C10 (amended): when `settle_event` completes successfully, the event
ends `Finished` iff an `OPEN`-or-`CLOSED` market existed at the start of
the call (or the event was already `Finished`), even when every selected
market was skipped; with no such market the whole store is returned
unchanged.  When the call fails (e.g. a scoring rule with
`max_score = 0`), it rolls back and the status is left unchanged even
though selectable markets existed. -/
theorem settle_event_finishes_iff (fm : FloatModel) (results : Results)
    (st st1 : Store) (r : SettleSummary)
    (h : settle_event fm results st = (st1, .ok r)) :
    (st1.eventStatus = .finished ↔
      (∃ m ∈ st.markets, selectable m = true) ∨ st.eventStatus = .finished) ∧
    ((st.markets.filter selectable).isEmpty = true → st1 = st) := by
  unfold settle_event at h
  by_cases h0 : (st.markets.filter selectable).isEmpty = true
  · rw [if_pos h0] at h
    have hst1 : st1 = st := (congrArg Prod.fst h).symm
    subst hst1
    have hnone : ¬ ∃ m ∈ st1.markets, selectable m = true := by
      rw [List.isEmpty_iff, List.filter_eq_nil_iff] at h0
      rintro ⟨m, hm, hsel⟩
      exact h0 m hm hsel
    constructor
    · simp [hnone]
    · intro _; rfl
  · rw [if_neg h0] at h
    cases hSL : settleLoop fm results st.markets
        ⟨st.positions, st.wallets, st.ledger, st.settlements, 0, 0⟩ with
    | error e =>
      rw [hSL] at h
      exact absurd (congrArg Prod.snd h) (by simp)
    | ok p =>
      obtain ⟨ms', acc⟩ := p
      rw [hSL] at h
      have hst1 : st1 =
          { st with
              eventStatus := .finished, markets := ms',
              positions := acc.positions, wallets := acc.wallets,
              ledger := acc.ledger, settlements := acc.settlements } :=
        (congrArg Prod.fst h).symm
      subst hst1
      have hsome : ∃ m ∈ st.markets, selectable m = true := by
        rcases List.isEmpty_eq_false_iff_exists_mem.mp
            (Bool.not_eq_true _ ▸ h0 : (st.markets.filter selectable).isEmpty = false) with ⟨m, hm⟩
        exact ⟨m, List.mem_of_mem_filter hm, List.of_mem_filter hm⟩
      exact ⟨by simp [hsome], fun hc => absurd hc h0⟩

/-- Witness for C10 (amended) on Scenario B's store, whose settlement
completes successfully. -/
theorem settle_event_finishes_iff_witness :
    ((settle_event fmZero settleDemoResults settleDemoStore).1.eventStatus =
        .finished ↔
      (∃ m ∈ settleDemoStore.markets, selectable m = true) ∨
        settleDemoStore.eventStatus = .finished) ∧
    ((settleDemoStore.markets.filter selectable).isEmpty = true →
      (settle_event fmZero settleDemoResults settleDemoStore).1 =
        settleDemoStore) :=
  settle_event_finishes_iff fmZero settleDemoResults settleDemoStore _ ⟨1, 1⟩
    settleDemo_first_call

/-- With all position rows non-negative, a market's supply is
non-negative. -/
theorem supply_nonneg {l : List SPos} (mid : ℕ)
    (h : ∀ p ∈ l, 0 ≤ p.shares) : 0 ≤ get_current_supply l mid := by
  unfold get_current_supply
  apply List.sum_nonneg
  intro x hx
  obtain ⟨p, hp, rfl⟩ := List.mem_map.mp hx
  exact h p (List.mem_of_mem_filter hp)

/-- With all position rows non-negative, one position's shares are at most
the market's supply. -/
theorem shares_le_supply {l : List SPos} {p : SPos} {mid : ℕ}
    (h : ∀ q ∈ l, 0 ≤ q.shares) (hp : p ∈ l) (hm : p.marketId = mid) :
    p.shares ≤ get_current_supply l mid := by
  unfold get_current_supply
  apply List.single_le_sum
  · intro x hx
    obtain ⟨q, hq, rfl⟩ := List.mem_map.mp hx
    exact h q (List.mem_of_mem_filter hq)
  · exact List.mem_map_of_mem SPos.shares
      (List.mem_filter.mpr ⟨hp, by simp [hm]⟩)

/-- C9: the over-sell domain-error branch of `sell_payout` is unreachable
through `sell_shares`.  Under the invariant that every position's shares
are non-negative, `sell_shares` either fails one of its own earlier checks
(validation, unknown market, closed market, insufficient shares) or
reaches `sell_payout` with `qty ≤ position.shares ≤ supply`, so no
bonding-curve domain error — in particular not the over-sell one — can
surface from a `sell_shares` call. -/
theorem sell_never_hits_curve_domain (fm : FloatModel) (st : Store)
    (userId marketId : ℕ) (qty : ℚ) (e : PErr)
    (h : ∀ p ∈ st.positions, 0 ≤ p.shares) :
    (sell_shares fm userId marketId qty st).2 ≠ .error (.pricing e) := by
  by_cases h1 : qty ≤ 0
  · simp [sell_shares, h1]
  · rcases hM : findMarket st marketId with _ | m
    · simp [sell_shares, h1, hM]
    · by_cases h2 : m.status ≠ .open_
      · simp [sell_shares, h1, hM, h2]
      · rcases hP : st.positions.find? (isPos userId marketId) with _ | p
        · simp [sell_shares, h1, hM, h2, hP]
        · by_cases h3 : p.shares < qty
          · simp [sell_shares, h1, hM, h2, hP, h3]
          · have hqty : 0 < qty := not_le.mp h1
            have hmem := List.mem_of_find?_eq_some hP
            have hpred : isPos userId marketId p = true := List.find?_some hP
            have hmid : p.marketId = marketId := (of_decide_eq_true hpred).2
            have hle : qty ≤ p.shares := not_lt.mp h3
            have hsup : p.shares ≤ get_current_supply st.positions marketId :=
              shares_le_supply h hmem hmid
            obtain ⟨payout, hpay⟩ : ∃ v,
                sell_payout fm (get_current_supply st.positions marketId)
                  qty m.a m.b = .ok v := by
              unfold sell_payout
              rw [if_neg h1,
                if_neg (not_lt.mpr (le_trans hqty.le (le_trans hle hsup))),
                if_neg (not_lt.mpr (le_trans hle hsup))]
              split_ifs <;> exact ⟨_, rfl⟩
            obtain ⟨np, hnp⟩ : ∃ v,
                price fm (get_current_supply st.positions marketId - qty)
                  m.a m.b = .ok v := by
              unfold price
              have h4 : qty ≤ get_current_supply st.positions marketId :=
                le_trans hle hsup
              rw [if_neg (not_lt.mpr (by linarith))]
              split_ifs <;> exact ⟨_, rfl⟩
            simp [sell_shares, h1, hM, h2, hP, h3, hpay, hnp]

/-- Witness for C9: selling 2 of 5 held shares in `sellDemoStore` does not
surface the over-sell error. -/
theorem sell_never_hits_curve_domain_witness :
    (∀ p ∈ sellDemoStore.positions, 0 ≤ p.shares) ∧
    (sell_shares fmZero 1 1 2 sellDemoStore).2 ≠
      .error (.pricing .oversell) := by
  have hpos : ∀ p ∈ sellDemoStore.positions, 0 ≤ p.shares := by
    intro p hp
    simp only [sellDemoStore, List.mem_singleton] at hp
    subst hp
    norm_num
  exact ⟨hpos, sell_never_hits_curve_domain fmZero sellDemoStore 1 1 2
    .oversell hpos⟩

end F1Market
